import Mathlib

/-!
Verification of the espidf APDU and HTTP drivers (src/driver/apdu/espidf.c,
src/driver/http/espidf.c).

The serial line is modelled as a single stream of bytes, a `List Nat`
(each element a byte value below 256): successive calls to
`uart_read_bytes` consume successive elements, and reaching the end of
the list stands for a read timeout (no further byte arrives within any
deadline).  Writes always succeed and are recorded as the list of chunks
handed to `uart_write_bytes`.  `_transmit_raw` takes a `const uint8_t
tx_len` together with a pointer, so a command is exactly that byte
sequence; it is embedded as the list `tx` of its bytes.
-/

set_option maxRecDepth 10000

/-- Fixed response-buffer capacity, `#define EUICC_INTERFACE_BUFSZ 264`. -/
def EUICC_INTERFACE_BUFSZ : Nat := 264

/-- Wire constant `APDU_OPENLOGICCHANNEL = "\x00\x70\x00\x00\x01"`. -/
def APDU_OPENLOGICCHANNEL : List Nat := [0x00, 0x70, 0x00, 0x00, 0x01]

/-- Wire constant `APDU_CLOSELOGICCHANNEL = "\x00\x70\x80\xFF\x00"`. -/
def APDU_CLOSELOGICCHANNEL : List Nat := [0x00, 0x70, 0x80, 0xFF, 0x00]

/-- Wire constant `APDU_SELECT_HEADER = "\x00\xA4\x04\x00\xFF"`. -/
def APDU_SELECT_HEADER : List Nat := [0x00, 0xA4, 0x04, 0x00, 0xFF]

/-- C `strncmp(a, b, n) == 0` on two byte buffers of the same length `n`:
comparison proceeds byte by byte and STOPS, reporting equality, as soon as
both current bytes are equal to 0 (the C string terminator), even if later
bytes differ.  This embeds the exact comparison `_send_and_clear_echo`
performs at src/driver/apdu/espidf.c line 52. -/
def strncmpEq : List Nat → List Nat → Bool
  | [], _ => true
  | _ :: _, [] => true
  | a :: as, b :: bs => a == b && (a == 0 || strncmpEq as bs)

/-- `_send_and_clear_echo` (src/driver/apdu/espidf.c lines 39-60): write
`tx`, then read back `tx.length` bytes of hardware echo and compare them
with `strncmp`.  Returns the rest of the input stream on success, `none`
on a short read or on a reported mismatch. -/
def sendAndClearEcho (tx stream : List Nat) : Option (List Nat) :=
  if stream.length < tx.length then none
  else if strncmpEq (stream.take tx.length) tx then some (stream.drop tx.length)
  else none

/-- Outcome of the procedure-byte loop of `_transmit_raw`. -/
inductive ProcOut where
  | ack (rest : List Nat)
  | swDone (sw1 sw2 : Nat)
  | fail
deriving DecidableEq

/-- Procedure-byte loop of `_transmit_raw` (src/driver/apdu/espidf.c lines
76-106): read one byte; if it equals `INS` it is an ACK; if it is 0x60
discard it and read again; otherwise it is SW1, one more byte is read as
SW2, and a further pending byte is an error. -/
def procLoop (ins : Nat) : List Nat → ProcOut
  | [] => ProcOut.fail
  | b :: rest =>
    if b = ins then ProcOut.ack rest
    else if b = 0x60 then procLoop ins rest
    else
      match rest with
      | [] => ProcOut.fail
      | sw2 :: rest2 => if rest2 = [] then ProcOut.swDone b sw2 else ProcOut.fail

/-- Expected-response-length computation of `_transmit_raw`
(src/driver/apdu/espidf.c lines 113-176).  `n` is `tx_len` and `p3` is
`tx[4]`.  The C locals `body_len` and `lc` are ints there; the two
inequality tests of the extended branch are taken over `Int` because
`body_len - 3` and `body_len - 5` can be negative.  In the short branch
the function is only ever applied with `6 ≤ n`, where `n - 5` and `n - 6`
agree with the C int values of `body_len - 1` and `body_len - 2`.  The C
initialiser `tx[4] + 7 - tx_len` is dead: every branch below overwrites it. -/
def toRecv (tx : List Nat) : Nat :=
  let n := tx.length
  let p3 := tx.getD 4 0
  if p3 = 0 ∧ 5 < n then
    if n = 7 then
      let le := 256 * tx.getD 5 0 + tx.getD 6 0
      if le = 0 then 65535 else le + 2
    else
      let lc := 256 * tx.getD 5 0 + tx.getD 6 0
      if (lc : Int) ≠ (n : Int) - 7 ∧ (lc : Int) ≠ (n : Int) - 9 then 65535
      else if n = 7 + lc then 2
      else
        let le := 256 * tx.getD (n - 2) 0 + tx.getD (n - 1) 0
        if le = 0 then 65535 else le + 2
  else if n = 5 then
    if p3 = 0 then 65535 else p3 + 2
  else
    let lc := p3
    if lc ≠ n - 5 ∧ lc ≠ n - 6 then 65535
    else if n = 5 + lc then 2
    else
      let le := tx.getD (n - 1) 0
      if le = 0 then 65535 else le + 2

/-- Receive loop of `_transmit_raw` (src/driver/apdu/espidf.c lines
179-197): while fewer than `n` bytes are counted, read one byte (end of
stream is a timeout and breaks the loop); when exactly 2 bytes are
expected a 0x60 byte is discarded instead of counted; every counted byte
is stored at buffer index `acc.length` (the current value of `*rx_len`)
and then counted. -/
def recvLoop (n : Nat) : List Nat → List Nat → List Nat
  | [], acc => acc
  | b :: rest, acc =>
    if acc.length < n then
      if n = 2 ∧ b = 0x60 then recvLoop n rest acc
      else recvLoop n rest (acc ++ [b])
    else acc

/-- Result of `_transmit_raw`: the C return value, the bytes stored in the
response buffer of the caller with `*rx_len` equal to their number, and the
chunks handed to `uart_write_bytes`. -/
structure TransmitResult where
  ret : Int
  rx : List Nat
  sent : List (List Nat)
deriving DecidableEq

/-- Final phase of `_transmit_raw` (src/driver/apdu/espidf.c lines
178-207): run the receive loop, then fail when the count differs from the
expectation unless the expectation is the undetermined sentinel 65535. -/
def finishRecv (tx s : List Nat) (sent : List (List Nat)) : TransmitResult :=
  let n := toRecv tx
  let rxl := recvLoop n s []
  if rxl.length ≠ n ∧ n ≠ 65535 then ⟨-1, rxl, sent⟩
  else ⟨0, rxl, sent⟩

/-- `_transmit_raw` (src/driver/apdu/espidf.c lines 62-208): reject
commands shorter than 5 bytes before anything is written; send the 5-byte
header with echo check; run the procedure-byte loop (an early status word
returns `[sw1, sw2]` with `*rx_len = 2` and skips body and receive loop);
on ACK send the body, compute the expected length and receive. -/
def transmitRaw (tx stream : List Nat) : TransmitResult :=
  if tx.length < 5 then ⟨-1, [], []⟩
  else
    match sendAndClearEcho (tx.take 5) stream with
    | none => ⟨-1, [], [tx.take 5]⟩
    | some s1 =>
      match procLoop (tx.getD 1 0) s1 with
      | ProcOut.fail => ⟨-1, [], [tx.take 5]⟩
      | ProcOut.swDone sw1 sw2 => ⟨0, [sw1, sw2], [tx.take 5]⟩
      | ProcOut.ack s2 =>
        if 5 < tx.length then
          match sendAndClearEcho (tx.drop 5) s2 with
          | none => ⟨-1, [], [tx.take 5, tx.drop 5]⟩
          | some s3 => finishRecv tx s3 [tx.take 5, tx.drop 5]
        else finishRecv tx s2 [tx.take 5]

/-- SELECT command built by `apdu_interface_logic_channel_open`
(src/driver/apdu/espidf.c lines 311-316): the `APDU_SELECT_HEADER`
template with the assigned channel put into the class byte
(`(0x00 & 0xF0) | channel`) and the AID length into byte 4, followed by
the AID. -/
def selectCmd (aid : List Nat) (channel : Nat) : List Nat :=
  [0x00 &&& 0xF0 ||| channel, 0xA4, 0x04, 0x00, aid.length] ++ aid

/-- `apdu_interface_logic_channel_open` (src/driver/apdu/espidf.c lines
289-335), as a function of the AID and of the two input streams consumed
by its two `_transmit_raw` exchanges.  Returns the C return value:
the assigned channel on success, -1 on any failure. -/
def logicChannelOpen (aid : List Nat) (s1 s2 : List Nat) : Int :=
  let r1 := transmitRaw APDU_OPENLOGICCHANNEL s1
  if r1.ret ≠ 0 then -1
  else if r1.rx.length ≠ 3 then -1
  else if r1.rx.getD 1 0 &&& 0xF0 ≠ 0x90 then -1
  else
    let channel := r1.rx.getD 0 0
    let r2 := transmitRaw (selectCmd aid channel) s2
    if r2.ret ≠ 0 then -1
    else if r2.rx.length < 2 then -1
    else
      let sw := r2.rx.getD (r2.rx.length - 2) 0
      if sw = 0x90 ∨ sw = 0x61 then (channel : Int) else -1

/-- Acceptance test `apdu_interface_logic_channel_open` applies to the
MANAGE-CHANNEL-OPEN exchange (src/driver/apdu/espidf.c lines 296-308):
the exchange succeeded, the response is exactly 3 bytes, and the second
byte has high nibble 0x9. -/
abbrev openRespOK (r : TransmitResult) : Prop :=
  r.ret = 0 ∧ r.rx.length = 3 ∧ r.rx.getD 1 0 &&& 0xF0 = 0x90

/-- Acceptance test `apdu_interface_logic_channel_open` applies to the
SELECT exchange (src/driver/apdu/espidf.c lines 317-333): the exchange
succeeded, the response has at least 2 bytes, and the byte at index
length - 2 is 0x90 or 0x61. -/
abbrev selectRespOK (r : TransmitResult) : Prop :=
  r.ret = 0 ∧ 2 ≤ r.rx.length
    ∧ (r.rx.getD (r.rx.length - 2) 0 = 0x90 ∨ r.rx.getD (r.rx.length - 2) 0 = 0x61)

/-- `apdu_interface_logic_channel_close` (src/driver/apdu/espidf.c lines
337-346), as the list of chunks written on the line: when `channel` is
nonzero it runs `_transmit_raw` on the fixed `APDU_CLOSELOGICCHANNEL`
bytes, ignoring its result (the function returns void); when `channel`
is 0 it does nothing. -/
def logicChannelClose (channel : Nat) (stream : List Nat) : List (List Nat) :=
  if channel ≠ 0 then (transmitRaw APDU_CLOSELOGICCHANNEL stream).sent else []

/-- Interface-byte draining of `_wait_for_card` (src/driver/apdu/espidf.c
lines 235-244): the C loop `for i = 0..3` tests `t0 & (0x10 << i)` and
reads one byte for each set bit; it is embedded as a walk over the index
list `[0, 1, 2, 3]`.  Returns the rest of the stream, or `none` when a
read times out. -/
def drainBits (t0 : Nat) : List Nat → List Nat → Option (List Nat)
  | [], s => some s
  | i :: is, s =>
    if t0 &&& (0x10 <<< i) ≠ 0 then
      match s with
      | [] => none
      | _ :: rest => drainBits t0 is rest
    else drainBits t0 is s

/-- Historical-byte draining of `_wait_for_card` (src/driver/apdu/espidf.c
lines 245-252): read and discard `k = t0 & 0x0F` bytes, failing on a
timeout. -/
def drainHist : Nat → List Nat → Option (List Nat)
  | 0, s => some s
  | _ + 1, [] => none
  | k + 1, _ :: rest => drainHist k rest

/-- Everything `_wait_for_card` reads after the T0 byte and before it
declares the card ready: the interface bytes selected by the high
nibble of T0, then `t0 & 0x0F` historical bytes. -/
def drainAfterT0 (t0 : Nat) (s : List Nat) : Option (List Nat) :=
  match drainBits t0 [0, 1, 2, 3] s with
  | none => none
  | some s2 => drainHist (t0 &&& 0xF) s2

/-- Number of interface bytes `_wait_for_card` reads for a given T0 byte:
one for each set bit among `t0 & 0x10`, `t0 & 0x20`, `t0 & 0x40`,
`t0 & 0x80`. -/
def ifaceCount (t0 : Nat) : Nat :=
  (List.range 4).countP (fun i => t0 &&& (0x10 <<< i) != 0)

/-- T0 acquisition of `_wait_for_card` (src/driver/apdu/espidf.c lines
224-232): after the initial 0x3B, keep reading while repeated 0x3B bytes
arrive; the first byte differing from 0x3B is T0.  `none` on timeout. -/
def readT0 : List Nat → Option (Nat × List Nat)
  | [] => none
  | b :: rest => if b = 0x3B then readT0 rest else some (b, rest)

/-- `_wait_for_card` (src/driver/apdu/espidf.c lines 210-265) up to its
readiness decision: the first byte must be 0x3B, then T0 is read, then
interface and historical bytes are drained; `true` means the routine
returns 0 (ready).  The trailing buffered-noise drain is non-fatal and
consumes whatever is left, so it does not affect the decision. -/
def waitForCard (stream : List Nat) : Bool :=
  match stream with
  | [] => false
  | d :: rest =>
    if d ≠ 0x3B then false
    else
      match readT0 rest with
      | none => false
      | some (t0, rest2) =>
        match drainAfterT0 t0 rest2 with
        | none => false
        | some _ => true

/-- Result of `transmit` in the HTTP driver: C return value, the response
buffer (`none` is a NULL pointer), `*rx_len` and `*rcode`. -/
structure HttpResult where
  ret : Int
  rx : Option (List Nat)
  rxLen : Nat
  rcode : Nat
deriving DecidableEq

/-- Body accumulated by `_http_event_handler` (src/driver/http/espidf.c
lines 37-64): each `HTTP_EVENT_ON_DATA` chunk is appended to the output
buffer by `memcpy`. -/
def httpAccumulate (chunks : List (List Nat)) : List Nat :=
  chunks.foldl (fun acc c => acc ++ c) []

/-- `receive_len` as summed by `_http_event_handler`: the length of every chunk
is added when the event arrives, before any allocation can fail. -/
def httpReceiveLen (chunks : List (List Nat)) : Nat :=
  chunks.foldl (fun acc c => acc + c.length) 0

/-- `transmit` of the HTTP driver (src/driver/http/espidf.c lines
120-163), from `esp_http_client_perform` onwards.  `errOK` is whether
`perform` returned `ESP_OK`; `chunks` are the data chunks the event
handler stored; `lost` is the number of received bytes counted into
`receive_len` but not stored (so `output_len ≠ receive_len` exactly when
`lost ≠ 0`); `status` is the HTTP status code.  On the mismatch branch
`*rcode` is set to 0 via `err = ESP_FAIL` before the rcode assignment is
reached. -/
def httpTransmit (errOK : Bool) (chunks : List (List Nat)) (lost : Nat)
    (status : Nat) : HttpResult :=
  let buf := httpAccumulate chunks
  let outputLen := buf.length
  let receiveLen := httpReceiveLen chunks + lost
  if outputLen ≠ receiveLen then ⟨-1, none, 0, 0⟩
  else if errOK then
    if 0 < outputLen then ⟨0, some (buf ++ [0]), outputLen + 1, status⟩
    else ⟨0, none, 0, status⟩
  else ⟨-1, none, 0, status⟩

/-! Helper lemmas shared by several claim theorems. -/

theorem strncmpEq_self : ∀ a : List Nat, strncmpEq a a = true
  | [] => rfl
  | a :: as => by
    unfold strncmpEq
    by_cases h : a = 0
    · simp [h]
    · simp [h, strncmpEq_self as]

theorem sendAndClearEcho_self (tx rest : List Nat) :
    sendAndClearEcho tx (tx ++ rest) = some rest := by
  unfold sendAndClearEcho
  rw [if_neg (by simp), List.take_left, List.drop_left, if_pos (strncmpEq_self tx)]

theorem finishRecv_sent (tx s : List Nat) (L : List (List Nat)) :
    (finishRecv tx s L).sent = L := by
  simp only [finishRecv]
  split <;> rfl

theorem transmitRaw_sent_head (tx s : List Nat) (h : 5 ≤ tx.length) :
    (transmitRaw tx s).sent.head? = some (tx.take 5) := by
  unfold transmitRaw
  rw [if_neg (by omega)]
  split
  · rfl
  · split
    · rfl
    · rfl
    · split
      · split
        · rfl
        · rw [finishRecv_sent]; rfl
      · rw [finishRecv_sent]; rfl

theorem recvLoop_all (n : Nat) (hn : n ≠ 2) :
    ∀ (s acc : List Nat), acc.length + s.length ≤ n → recvLoop n s acc = acc ++ s := by
  intro s
  induction s with
  | nil => intro acc _; simp [recvLoop]
  | cons b rest ih =>
    intro acc h
    unfold recvLoop
    rw [if_pos (by simp at h; omega)]
    rw [if_neg (by simp [hn])]
    rw [ih (acc ++ [b]) (by simp at h ⊢; omega)]
    simp

/-! Claim theorems. -/

/-- Claim C1 (code bug): the echo check of `_send_and_clear_echo` uses
`strncmp` on binary data, so the comparison stops at the first 0x00 byte:
for the transmitted header 00 70 00 00 01 and the corrupted echo
00 FF FF FF FF the function reports success even though the echo differs
from the transmitted bytes, contradicting the required byte-for-byte
check. -/
theorem echo_strncmp_bug :
    sendAndClearEcho [0x00, 0x70, 0x00, 0x00, 0x01] [0x00, 0xFF, 0xFF, 0xFF, 0xFF] = some []
      ∧ ([0x00, 0xFF, 0xFF, 0xFF, 0xFF] : List Nat) ≠ [0x00, 0x70, 0x00, 0x00, 0x01] := by
  decide

/-- Claim C2 (counterexample): closing channel 2 transmits the fixed bytes
00 70 80 FF 00; the channel id 2 is not patched in, so the transmitted
command is not 02 70 80 FF 00 as claimed. -/
theorem close_channel_not_patched :
    (logicChannelClose 2 [0x00, 0x70, 0x80, 0xFF, 0x00]).head?
        = some [0x00, 0x70, 0x80, 0xFF, 0x00]
      ∧ ([0x00, 0x70, 0x80, 0xFF, 0x00] : List Nat) ≠ [0x02, 0x70, 0x80, 0xFF, 0x00] := by
  decide

/-- Claim C2 (amended): `logic_channel_close` with channel id 0 performs no
transmission at all, and for every nonzero channel id it hands the fixed,
unpatched MANAGE-CHANNEL-CLOSE APDU 00 70 80 FF 00 to `_transmit_raw`
(whose first transmitted chunk is that 5-byte command), ignoring the
result of the exchange. -/
theorem logic_channel_close_spec (ch : Nat) (s : List Nat) :
    (ch = 0 → logicChannelClose ch s = [])
    ∧ (ch ≠ 0 → (logicChannelClose ch s).head? = some APDU_CLOSELOGICCHANNEL) := by
  constructor
  · intro h; simp [logicChannelClose, h]
  · intro h
    unfold logicChannelClose
    rw [if_pos h]
    have h2 := transmitRaw_sent_head APDU_CLOSELOGICCHANNEL s (by decide)
    simpa using h2

theorem logic_channel_close_spec_witness :
    logicChannelClose 0 [] = []
      ∧ (logicChannelClose 3 []).head? = some APDU_CLOSELOGICCHANNEL :=
  ⟨(logic_channel_close_spec 0 []).1 rfl, (logic_channel_close_spec 3 []).2 (by decide)⟩

/-- Claim C8: `_transmit_raw` rejects every command shorter than 5 bytes
with return value -1 before anything is written on the line (no chunk is
transmitted, no response byte stored), and every command of length at
least 5 reaches header transmission: the first chunk written is exactly
the 5-byte header. -/
theorem transmit_len_guard (tx s : List Nat) :
    (tx.length < 5 → transmitRaw tx s = ⟨-1, [], []⟩)
    ∧ (5 ≤ tx.length → (transmitRaw tx s).sent.head? = some (tx.take 5)) := by
  constructor
  · intro h
    unfold transmitRaw
    rw [if_pos h]
  · intro h
    exact transmitRaw_sent_head tx s h

theorem transmit_len_guard_witness :
    transmitRaw [1, 2, 3] [9] = ⟨-1, [], []⟩
      ∧ (transmitRaw [1, 2, 3, 4, 5] []).sent.head? = some [1, 2, 3, 4, 5] := by
  refine ⟨(transmit_len_guard [1, 2, 3] [9]).1 (by decide), ?_⟩
  have h := (transmit_len_guard [1, 2, 3, 4, 5] []).2 (by decide)
  simpa using h

/-- Claim C9 (code bug): with the undetermined expectation 65535 (here the
command 00 A4 04 00 00) the receive loop counts every arriving byte, so a
card sending 265 bytes makes `*rx_len` reach 265: the 265th byte is
stored at index 264, beyond the 264-byte response buffer
`EUICC_INTERFACE_BUFSZ`. -/
theorem recv_loop_overflow :
    EUICC_INTERFACE_BUFSZ <
      (transmitRaw [0x00, 0xA4, 0x04, 0x00, 0x00]
        ([0x00, 0xA4, 0x04, 0x00, 0x00] ++ 0xA4 :: List.replicate 265 1)).rx.length := by
  have h1 : transmitRaw [0x00, 0xA4, 0x04, 0x00, 0x00]
      ([0x00, 0xA4, 0x04, 0x00, 0x00] ++ 0xA4 :: List.replicate 265 1)
      = finishRecv [0x00, 0xA4, 0x04, 0x00, 0x00] (List.replicate 265 1)
          [[0x00, 0xA4, 0x04, 0x00, 0x00]] := rfl
  rw [h1]
  simp only [finishRecv]
  rw [show toRecv [0x00, 0xA4, 0x04, 0x00, 0x00] = 65535 from rfl]
  rw [recvLoop_all 65535 (by decide) (List.replicate 265 1) [] (by simp)]
  simp [EUICC_INTERFACE_BUFSZ]

/-! Claims C3 and C4: expected-response-length case analysis. -/

/-- Claim C3: the short-form expected-response-length computation of
`_transmit_raw` satisfies the ISO 7816 case table: a 5-byte header-only
command yields 65535 when P3 = 0 and P3 + 2 otherwise; header + Lc +
exactly Lc data bytes yields 2; header + Lc + Lc data bytes + one
trailing Le byte yields 65535 when Le = 0 and Le + 2 otherwise; and a
declared Lc consistent with neither body shape yields 65535. -/
theorem toRecv_short_cases (c i p1 p2 p3 le : Nat) (d : List Nat)
    (hp3 : p3 < 256) (hd0 : d ≠ []) (hd : d.length < 256) (hle : le < 256) :
    toRecv [c, i, p1, p2, p3] = (if p3 = 0 then 65535 else p3 + 2)
    ∧ toRecv ([c, i, p1, p2, d.length] ++ d) = 2
    ∧ toRecv ([c, i, p1, p2, d.length] ++ d ++ [le]) = (if le = 0 then 65535 else le + 2)
    ∧ (∀ tx : List Nat, 5 < tx.length → tx.getD 4 0 ≠ 0 →
        tx.getD 4 0 ≠ tx.length - 5 → tx.getD 4 0 ≠ tx.length - 6 → toRecv tx = 65535) := by
  have hd0' : d.length ≠ 0 := fun h => hd0 (List.eq_nil_of_length_eq_zero h)
  refine ⟨?_, ?_, ?_, ?_⟩
  · simp only [toRecv, List.length_cons, List.length_nil, List.getD]
    norm_num
  · have hlen : (([c, i, p1, p2, d.length] ++ d) : List Nat).length = 5 + d.length := by simp <;> omega
    have hg4 : (([c, i, p1, p2, d.length] ++ d) : List Nat).getD 4 0 = d.length := by
      rw [List.getD_append _ _ _ _ (by simp)]; rfl
    simp only [toRecv, hlen, hg4, true_and]
    split_ifs <;> omega
  · have hlen : (([c, i, p1, p2, d.length] ++ (d ++ [le])) : List Nat).length
        = 6 + d.length := by simp <;> omega
    have hg4 : (([c, i, p1, p2, d.length] ++ (d ++ [le])) : List Nat).getD 4 0 = d.length := by
      rw [List.getD_append _ _ _ _ (by simp)]; rfl
    have hgl : (([c, i, p1, p2, d.length] ++ (d ++ [le])) : List Nat).getD
        (6 + d.length - 1) 0 = le := by
      rw [List.getD_append_right _ _ _ _ (by simp <;> omega)]
      have h5 : 6 + d.length - 1 - ([c, i, p1, p2, d.length] : List Nat).length
          = d.length := by simp <;> omega
      rw [h5, List.getD_append_right _ _ _ _ (by omega)]
      simp
    rw [show (([c, i, p1, p2, d.length] ++ d ++ [le]) : List Nat)
        = [c, i, p1, p2, d.length] ++ (d ++ [le]) from by simp]
    simp only [toRecv, hlen, hg4, hgl, true_and]
    split_ifs <;> omega
  · intro tx h5 hne h1 h2
    simp only [toRecv]
    split_ifs <;> omega

theorem toRecv_short_cases_witness :
    toRecv [0x00, 0xA4, 0x04, 0x00, 5] = 7
    ∧ toRecv [0x00, 0xA4, 0x04, 0x00, 3, 1, 2, 3] = 2
    ∧ toRecv [0x00, 0xA4, 0x04, 0x00, 3, 1, 2, 3, 1] = 3
    ∧ toRecv [0x00, 0xA4, 0x04, 0x00, 9, 1, 2, 3] = 65535 := by
  have h := toRecv_short_cases 0x00 0xA4 0x04 0x00 5 1 [1, 2, 3]
    (by decide) (by decide) (by decide) (by decide)
  refine ⟨by simpa using h.1, by simpa using h.2.1, by simpa using h.2.2.1, ?_⟩
  exact h.2.2.2 [0x00, 0xA4, 0x04, 0x00, 9, 1, 2, 3] (by decide) (by decide)
    (by decide) (by decide)

/-- Claim C4: the extended-form expected-response-length computation of
`_transmit_raw` mirrors the short form with 2-byte big-endian fields: a
7-byte command (header + 2-byte Le) yields 65535 when Le = 0 and Le + 2
otherwise; header + 2-byte Lc + exactly Lc data bytes yields 2; the same
with a trailing 2-byte Le yields 65535 when Le = 0 and Le + 2 otherwise;
and an Lc consistent with neither shape yields 65535. -/
theorem toRecv_extended_cases (c i p1 p2 l1 l2 e1 e2 : Nat) (d : List Nat)
    (h1 : l1 < 256) (h2 : l2 < 256) (he1 : e1 < 256) (he2 : e2 < 256)
    (hd : d.length = 256 * l1 + l2) (hd0 : d ≠ []) :
    toRecv [c, i, p1, p2, 0, l1, l2]
        = (if 256 * l1 + l2 = 0 then 65535 else 256 * l1 + l2 + 2)
    ∧ toRecv ([c, i, p1, p2, 0, l1, l2] ++ d) = 2
    ∧ toRecv ([c, i, p1, p2, 0, l1, l2] ++ d ++ [e1, e2])
        = (if 256 * e1 + e2 = 0 then 65535 else 256 * e1 + e2 + 2)
    ∧ (∀ tx : List Nat, tx.getD 4 0 = 0 → 5 < tx.length → tx.length ≠ 7 →
        ((256 * tx.getD 5 0 + tx.getD 6 0 : Nat) : Int) ≠ (tx.length : Int) - 7 →
        ((256 * tx.getD 5 0 + tx.getD 6 0 : Nat) : Int) ≠ (tx.length : Int) - 9 →
        toRecv tx = 65535) := by
  have hd0' : d.length ≠ 0 := fun h => hd0 (List.eq_nil_of_length_eq_zero h)
  refine ⟨?_, ?_, ?_, ?_⟩
  · simp only [toRecv, List.length_cons, List.length_nil, List.getD]
    norm_num
  · have hlen : (([c, i, p1, p2, 0, l1, l2] ++ d) : List Nat).length = 7 + d.length := by simp <;> omega
    have hg4 : (([c, i, p1, p2, 0, l1, l2] ++ d) : List Nat).getD 4 0 = 0 := by
      rw [List.getD_append _ _ _ _ (by simp)]; rfl
    have hg5 : (([c, i, p1, p2, 0, l1, l2] ++ d) : List Nat).getD 5 0 = l1 := by
      rw [List.getD_append _ _ _ _ (by simp)]; rfl
    have hg6 : (([c, i, p1, p2, 0, l1, l2] ++ d) : List Nat).getD 6 0 = l2 := by
      rw [List.getD_append _ _ _ _ (by simp)]; rfl
    simp only [toRecv, hlen, hg4, hg5, hg6, true_and]
    split_ifs <;> omega
  · have hlen : (([c, i, p1, p2, 0, l1, l2] ++ (d ++ [e1, e2])) : List Nat).length
        = 9 + d.length := by simp <;> omega
    have hg4 : (([c, i, p1, p2, 0, l1, l2] ++ (d ++ [e1, e2])) : List Nat).getD 4 0 = 0 := by
      rw [List.getD_append _ _ _ _ (by simp)]; rfl
    have hg5 : (([c, i, p1, p2, 0, l1, l2] ++ (d ++ [e1, e2])) : List Nat).getD 5 0 = l1 := by
      rw [List.getD_append _ _ _ _ (by simp)]; rfl
    have hg6 : (([c, i, p1, p2, 0, l1, l2] ++ (d ++ [e1, e2])) : List Nat).getD 6 0 = l2 := by
      rw [List.getD_append _ _ _ _ (by simp)]; rfl
    have hge1 : (([c, i, p1, p2, 0, l1, l2] ++ (d ++ [e1, e2])) : List Nat).getD
        (9 + d.length - 2) 0 = e1 := by
      rw [List.getD_append_right _ _ _ _ (by simp <;> omega)]
      have h7 : 9 + d.length - 2 - ([c, i, p1, p2, 0, l1, l2] : List Nat).length
          = d.length := by simp <;> omega
      rw [h7, List.getD_append_right _ _ _ _ (by omega)]
      simp
    have hge2 : (([c, i, p1, p2, 0, l1, l2] ++ (d ++ [e1, e2])) : List Nat).getD
        (9 + d.length - 1) 0 = e2 := by
      rw [List.getD_append_right _ _ _ _ (by simp <;> omega)]
      have h7 : 9 + d.length - 1 - ([c, i, p1, p2, 0, l1, l2] : List Nat).length
          = d.length + 1 := by simp <;> omega
      rw [h7, List.getD_append_right _ _ _ _ (by omega)]
      simp
    rw [show (([c, i, p1, p2, 0, l1, l2] ++ d ++ [e1, e2]) : List Nat)
        = [c, i, p1, p2, 0, l1, l2] ++ (d ++ [e1, e2]) from by simp]
    simp only [toRecv, hlen, hg4, hg5, hg6, hge1, hge2, true_and]
    split_ifs <;> omega
  · intro tx hz h5 h7 hc1 hc2
    simp only [toRecv]
    split_ifs <;> omega

theorem toRecv_extended_cases_witness :
    toRecv [0x00, 0xA4, 0x04, 0x00, 0, 0, 2] = 4
    ∧ toRecv [0x00, 0xA4, 0x04, 0x00, 0, 0, 2, 9, 9] = 2
    ∧ toRecv [0x00, 0xA4, 0x04, 0x00, 0, 0, 2, 9, 9, 0, 3] = 5
    ∧ toRecv [0x00, 0xA4, 0x04, 0x00, 0, 0, 9, 9, 9] = 65535 := by
  have h := toRecv_extended_cases 0x00 0xA4 0x04 0x00 0 2 0 3 [9, 9]
    (by decide) (by decide) (by decide) (by decide) (by decide) (by decide)
  refine ⟨by simpa using h.1, by simpa using h.2.1, by simpa using h.2.2.1, ?_⟩
  exact h.2.2.2 [0x00, 0xA4, 0x04, 0x00, 0, 0, 9, 9, 9] (by decide) (by decide)
    (by decide) (by decide) (by decide)

/-- Claim C5: classification of each procedure byte read after the header:
a byte equal to the INS byte of the command is an ACK; the NULL byte 0x60 is
discarded and another procedure byte is read; any other byte is SW1, one
further byte is read as SW2, a further pending byte fails the exchange,
and otherwise `_transmit_raw` returns 0 with exactly the 2-byte response
[SW1, SW2], transmitting only the header (never the body) and skipping
the receive loop. -/
theorem proc_byte_class (ins b : Nat) (rest : List Nat) (tx stream : List Nat) :
    (b = ins → procLoop ins (b :: rest) = ProcOut.ack rest)
    ∧ (b ≠ ins → b = 0x60 → procLoop ins (b :: rest) = procLoop ins rest)
    ∧ (b ≠ ins → b ≠ 0x60 →
        procLoop ins (b :: rest) =
          (match rest with
           | [] => ProcOut.fail
           | sw2 :: rest2 => if rest2 = [] then ProcOut.swDone b sw2 else ProcOut.fail))
    ∧ (∀ s1 sw1 sw2, 5 ≤ tx.length →
        sendAndClearEcho (tx.take 5) stream = some s1 →
        procLoop (tx.getD 1 0) s1 = ProcOut.swDone sw1 sw2 →
        transmitRaw tx stream = ⟨0, [sw1, sw2], [tx.take 5]⟩) := by
  refine ⟨?_, ?_, ?_, ?_⟩
  · intro h
    simp [procLoop, h]
  · intro h1 h2
    subst h2
    simp [procLoop, h1]
  · intro h1 h2
    simp only [procLoop]
    rw [if_neg h1, if_neg h2]
  · intro s1 sw1 sw2 h hE hP
    have h5 : ¬ tx.length < 5 := by omega
    simp only [transmitRaw, h5, if_false, hE, hP]

theorem proc_byte_class_witness :
    transmitRaw [0x00, 0xA4, 0x04, 0x00, 0x02, 0xAA, 0xBB]
        [0x00, 0xA4, 0x04, 0x00, 0x02, 0x6A, 0x82]
      = ⟨0, [0x6A, 0x82], [[0x00, 0xA4, 0x04, 0x00, 0x02]]⟩ := by
  have h := (proc_byte_class 0xA4 0x6A [0x82] [0x00, 0xA4, 0x04, 0x00, 0x02, 0xAA, 0xBB]
      [0x00, 0xA4, 0x04, 0x00, 0x02, 0x6A, 0x82]).2.2.2 [0x6A, 0x82] 0x6A 0x82
      (by decide) (by decide) (by decide)
  simpa using h

/-- Claim C6: `apdu_interface_logic_channel_open` returns -1 unless the
MANAGE-CHANNEL-OPEN exchange succeeds with a 3-byte response whose second
byte has high nibble 0x9; on such a response the assigned channel id is
the first byte of the response, and the function returns that channel id
exactly when the subsequent SELECT exchange succeeds with at least 2
bytes whose byte at index length - 2 is 0x90 or 0x61, and -1 on any
other status word. -/
theorem logic_channel_open_spec (aid s1 s2 : List Nat) :
    (¬ openRespOK (transmitRaw APDU_OPENLOGICCHANNEL s1) →
        logicChannelOpen aid s1 s2 = -1)
    ∧ (openRespOK (transmitRaw APDU_OPENLOGICCHANNEL s1) →
        (selectRespOK (transmitRaw
              (selectCmd aid ((transmitRaw APDU_OPENLOGICCHANNEL s1).rx.getD 0 0)) s2) →
            logicChannelOpen aid s1 s2
              = ((transmitRaw APDU_OPENLOGICCHANNEL s1).rx.getD 0 0 : Int))
        ∧ (¬ selectRespOK (transmitRaw
              (selectCmd aid ((transmitRaw APDU_OPENLOGICCHANNEL s1).rx.getD 0 0)) s2) →
            logicChannelOpen aid s1 s2 = -1)) := by
  constructor
  · intro h
    simp only [openRespOK, not_and_or] at h
    simp only [logicChannelOpen]
    rcases h with h | h | h
    · rw [if_pos h]
    · by_cases he : (transmitRaw APDU_OPENLOGICCHANNEL s1).ret ≠ 0
      · rw [if_pos he]
      · rw [if_neg he, if_pos h]
    · by_cases he : (transmitRaw APDU_OPENLOGICCHANNEL s1).ret ≠ 0
      · rw [if_pos he]
      · by_cases hl : (transmitRaw APDU_OPENLOGICCHANNEL s1).rx.length ≠ 3
        · rw [if_neg he, if_pos hl]
        · rw [if_neg he, if_neg hl, if_pos h]
  · rintro ⟨h1, h2, h3⟩
    constructor
    · rintro ⟨g1, g2, g3⟩
      simp only [logicChannelOpen]
      rw [if_neg (fun hn => hn h1), if_neg (fun hn => hn h2), if_neg (fun hn => hn h3),
        if_neg (fun hn => hn g1), if_neg (by omega), if_pos g3]
    · intro hs
      simp only [selectRespOK, not_and_or] at hs
      simp only [logicChannelOpen]
      rw [if_neg (fun hn => hn h1), if_neg (fun hn => hn h2), if_neg (fun hn => hn h3)]
      rcases hs with hs | hs | hs
      · rw [if_pos hs]
      · by_cases he : (transmitRaw
            (selectCmd aid ((transmitRaw APDU_OPENLOGICCHANNEL s1).rx.getD 0 0)) s2).ret ≠ 0
        · rw [if_pos he]
        · rw [if_neg he, if_pos (by omega)]
      · by_cases he : (transmitRaw
            (selectCmd aid ((transmitRaw APDU_OPENLOGICCHANNEL s1).rx.getD 0 0)) s2).ret ≠ 0
        · rw [if_pos he]
        · by_cases hl : (transmitRaw
              (selectCmd aid ((transmitRaw APDU_OPENLOGICCHANNEL s1).rx.getD 0 0)) s2).rx.length < 2
          · rw [if_neg he, if_pos hl]
          · rw [if_neg he, if_neg hl, if_neg hs]

theorem logic_channel_open_spec_witness :
    logicChannelOpen [0xAA, 0xBB]
        [0x00, 0x70, 0x00, 0x00, 0x01, 0x70, 0x01, 0x90, 0x00]
        [0x01, 0xA4, 0x04, 0x00, 0x02, 0xA4, 0xAA, 0xBB, 0x90, 0x00] = 1 := by
  have h := ((logic_channel_open_spec [0xAA, 0xBB]
      [0x00, 0x70, 0x00, 0x00, 0x01, 0x70, 0x01, 0x90, 0x00]
      [0x01, 0xA4, 0x04, 0x00, 0x02, 0xA4, 0xAA, 0xBB, 0x90, 0x00]).2 (by decide)).1 (by decide)
  rw [h]
  decide

/-! Claim C7: ATR interface/historical byte draining. -/

theorem drainBits_spec (t0 : Nat) : ∀ (bits : List Nat) (s : List Nat),
    ((bits.countP (fun j => t0 &&& (0x10 <<< j) != 0) ≤ s.length →
        drainBits t0 bits s
          = some (s.drop (bits.countP (fun j => t0 &&& (0x10 <<< j) != 0))))
      ∧ (s.length < bits.countP (fun j => t0 &&& (0x10 <<< j) != 0) →
        drainBits t0 bits s = none)) := by
  intro bits
  induction bits with
  | nil =>
    intro s
    refine ⟨fun _ => by simp [drainBits], fun h => by simp at h⟩
  | cons i is ih =>
    intro s
    by_cases hb : t0 &&& (0x10 <<< i) ≠ 0
    · have hc : (i :: is).countP (fun j => t0 &&& (0x10 <<< j) != 0)
          = is.countP (fun j => t0 &&& (0x10 <<< j) != 0) + 1 := by
        simp [List.countP_cons, hb]
      constructor
      · intro h
        cases s with
        | nil => rw [hc] at h; simp only [List.length_nil] at h; omega
        | cons a rest =>
          simp only [drainBits, if_pos hb, hc]
          rw [(ih rest).1 (by rw [hc] at h; simpa using h)]
          rw [List.drop_succ_cons]
      · intro h
        cases s with
        | nil => simp [drainBits, if_pos hb]
        | cons a rest =>
          simp only [drainBits, if_pos hb]
          exact (ih rest).2 (by rw [hc] at h; simpa using h)
    · have hc : (i :: is).countP (fun j => t0 &&& (0x10 <<< j) != 0)
          = is.countP (fun j => t0 &&& (0x10 <<< j) != 0) := by
        simp [List.countP_cons, hb]
      constructor
      · intro h
        simp only [drainBits, if_neg hb, hc]
        exact (ih s).1 (by rw [hc] at h; exact h)
      · intro h
        simp only [drainBits, if_neg hb]
        exact (ih s).2 (by rw [hc] at h; exact h)

theorem drainHist_spec : ∀ (k : Nat) (s : List Nat),
    (k ≤ s.length → drainHist k s = some (s.drop k))
    ∧ (s.length < k → drainHist k s = none) := by
  intro k
  induction k with
  | zero =>
    intro s
    exact ⟨fun _ => by simp [drainHist], fun h => by omega⟩
  | succ n ih =>
    intro s
    cases s with
    | nil =>
      exact ⟨fun h => by simp at h, fun _ => by simp [drainHist]⟩
    | cons a rest =>
      constructor
      · intro h
        simp only [drainHist, List.drop_succ_cons]
        exact (ih rest).1 (by simpa using h)
      · intro h
        simp only [drainHist]
        exact (ih rest).2 (by simpa using h)

/-- Claim C7: for every T0 byte, `_wait_for_card` reads and discards
exactly one interface byte per set bit of the high nibble of T0 followed by
exactly T0 & 0x0F historical bytes before declaring the card ready; a
stream exhausted (read timeout) during these mandatory reads fails the
listener; and T0 = 0x97 selects exactly 2 interface bytes and 7
historical bytes. -/
theorem atr_drain_spec (t0 : Nat) (s : List Nat) :
    (ifaceCount t0 + (t0 &&& 0xF) ≤ s.length →
        drainAfterT0 t0 s = some (s.drop (ifaceCount t0 + (t0 &&& 0xF))))
    ∧ (s.length < ifaceCount t0 + (t0 &&& 0xF) → drainAfterT0 t0 s = none)
    ∧ (ifaceCount 0x97 = 2 ∧ 0x97 &&& 0xF = 7)
    ∧ (∀ t1 rest, t1 ≠ 0x3B →
        (waitForCard (0x3B :: t1 :: rest) = true ↔ drainAfterT0 t1 rest ≠ none)) := by
  have hrange : ifaceCount t0
      = ([0, 1, 2, 3] : List Nat).countP (fun j => t0 &&& (0x10 <<< j) != 0) := by
    rfl
  refine ⟨?_, ?_, ⟨by decide, by decide⟩, ?_⟩
  · intro h
    have hb := (drainBits_spec t0 [0, 1, 2, 3] s).1 (by rw [← hrange]; omega)
    simp only [drainAfterT0, hb, ← hrange]
    have hh := (drainHist_spec (t0 &&& 0xF) (s.drop (ifaceCount t0))).1
      (by rw [List.length_drop]; omega)
    rw [hh, List.drop_drop]
  · intro h
    by_cases hc : ifaceCount t0 ≤ s.length
    · have hb := (drainBits_spec t0 [0, 1, 2, 3] s).1 (by rw [← hrange]; omega)
      simp only [drainAfterT0, hb, ← hrange]
      exact (drainHist_spec (t0 &&& 0xF) (s.drop (ifaceCount t0))).2
        (by rw [List.length_drop]; omega)
    · have hb := (drainBits_spec t0 [0, 1, 2, 3] s).2 (by rw [← hrange]; omega)
      simp only [drainAfterT0, hb]
  · intro t1 rest ht
    cases hD : drainAfterT0 t1 rest with
    | none => simp [waitForCard, readT0, ht, hD]
    | some r => simp [waitForCard, readT0, ht, hD]

theorem atr_drain_spec_witness :
    drainAfterT0 0x97 (List.replicate 9 0)
      = some ((List.replicate 9 0).drop (ifaceCount 0x97 + (0x97 &&& 0xF))) :=
  (atr_drain_spec 0x97 (List.replicate 9 0)).1 (by decide)

/-! Claim C10: HTTP transmit response-length reporting. -/

theorem httpAccumulate_length (chunks : List (List Nat)) :
    (httpAccumulate chunks).length = httpReceiveLen chunks := by
  have h : ∀ (cs : List (List Nat)) (acc : List Nat),
      (cs.foldl (fun a c => a ++ c) acc).length
        = cs.foldl (fun a c => a + c.length) acc.length := by
    intro cs
    induction cs with
    | nil => intro acc; rfl
    | cons c cs ih =>
      intro acc
      simp only [List.foldl_cons, ih, List.length_append]
  simpa using h chunks []

/-- Claim C10: after a successful HTTP transmit (return 0) with a
non-empty body, the reported length is the number of received body bytes
plus one, the returned buffer is the body with a NUL byte appended, and
its last byte is 0; on every failure (return -1) and on success with an
empty body the response pointer is NULL and the reported length is 0. -/
theorem http_transmit_spec (errOK : Bool) (chunks : List (List Nat)) (lost status : Nat) :
    ((httpTransmit errOK chunks lost status).ret = 0 →
        0 < httpReceiveLen chunks + lost →
        (httpTransmit errOK chunks lost status).rxLen = httpReceiveLen chunks + lost + 1
          ∧ (httpTransmit errOK chunks lost status).rx = some (httpAccumulate chunks ++ [0])
          ∧ (httpAccumulate chunks ++ [0]).getLast? = some 0)
    ∧ ((httpTransmit errOK chunks lost status).ret ≠ 0 ∨ httpReceiveLen chunks + lost = 0 →
        (httpTransmit errOK chunks lost status).rx = none
          ∧ (httpTransmit errOK chunks lost status).rxLen = 0) := by
  have hlen := httpAccumulate_length chunks
  by_cases hmis : (httpAccumulate chunks).length ≠ httpReceiveLen chunks + lost
  · have hret : httpTransmit errOK chunks lost status = ⟨-1, none, 0, 0⟩ := by
      simp only [httpTransmit]
      rw [if_pos hmis]
    rw [hret]
    refine ⟨fun h0 => by simp at h0, fun _ => ⟨rfl, rfl⟩⟩
  · push_neg at hmis
    cases errOK with
    | false =>
      have hret : httpTransmit false chunks lost status = ⟨-1, none, 0, status⟩ := by
        simp only [httpTransmit]
        rw [if_neg (by omega), if_neg (by simp)]
      rw [hret]
      exact ⟨fun h0 => by simp at h0, fun _ => ⟨rfl, rfl⟩⟩
    | true =>
      by_cases hpos : 0 < (httpAccumulate chunks).length
      · have hret : httpTransmit true chunks lost status
            = ⟨0, some (httpAccumulate chunks ++ [0]), (httpAccumulate chunks).length + 1,
                status⟩ := by
          simp only [httpTransmit]
          rw [if_neg (by omega), if_pos trivial, if_pos hpos]
        rw [hret]
        constructor
        · intro _ _
          refine ⟨?_, rfl, by rw [List.getLast?_concat]⟩
          show (httpAccumulate chunks).length + 1 = httpReceiveLen chunks + lost + 1
          omega
        · intro h
          rcases h with h | h
          · simp at h
          · omega
      · have hret : httpTransmit true chunks lost status = ⟨0, none, 0, status⟩ := by
          simp only [httpTransmit]
          rw [if_neg (by omega), if_pos trivial, if_neg hpos]
        rw [hret]
        exact ⟨fun _ hp => absurd hp (by omega), fun _ => ⟨rfl, rfl⟩⟩

theorem http_transmit_spec_witness :
    (httpTransmit true [[104, 105]] 0 200).rxLen = httpReceiveLen [[104, 105]] + 0 + 1
      ∧ (httpTransmit true [[104, 105]] 0 200).rx
          = some (httpAccumulate [[104, 105]] ++ [0]) :=
  ⟨((http_transmit_spec true [[104, 105]] 0 200).1 (by decide) (by decide)).1,
   ((http_transmit_spec true [[104, 105]] 0 200).1 (by decide) (by decide)).2.1⟩
